import Mathlib

/-!
Verification development for the local-cache action (src/src/cache.ts).

The embedding below translates the cache module into Lean:
* strings are Lean strings (the relevant keys and file names are ASCII, so
  the JavaScript UTF-16 length and the Lean codepoint length agree);
* the cache directory is modelled as the list of its entries, each entry
  carrying the file name, the path relative to the cache directory and the
  modification time in milliseconds (fast-glob is called with stats);
* filesystem and subprocess side effects are modelled as an explicit trace
  of executed shell commands, and subprocess failure is modelled by a
  caller-supplied predicate on command strings;
* errors (the ValidationError / ReserveCacheError classes and generic
  subprocess failures) become an inductive error type returned via Except.
-/

namespace LocalCache

/-- A directory entry as returned by fast-glob in object mode with stats:
the base name, the path relative to the glob root, and mtimeMs. -/
structure Entry where
  name : String
  path : String
  mtimeMs : Nat
deriving DecidableEq, Repr

/-- Error kinds of the cache module: the two error classes declared in
cache.ts plus the generic error of a failing subprocess. -/
inductive CacheError where
  | validation (msg : String)
  | reserveCache (msg : String)
  | operational (cmd : String)
deriving DecidableEq, Repr

/-- One observable side effect: execution of a shell command. -/
inductive Effect where
  | execCmd (cmd : String)
deriving DecidableEq, Repr

/-- The environment variables read by getCacheDirPath. -/
structure Env where
  cacheDirVar : Option String
  githubRepository : Option String
deriving DecidableEq, Repr

/-- Decides whether the character list a is a prefix of b
(JavaScript startsWith on the underlying characters). -/
def listStarts : List Char → List Char → Bool
  | [], _ => true
  | _ :: _, [] => false
  | a :: as, b :: bs => a == b && listStarts as bs

/-- Decides whether pat occurs as a contiguous sublist of s
(JavaScript indexOf(pat) returning a non-negative position). -/
def containsSub (pat : List Char) : List Char → Bool
  | [] => pat.isEmpty
  | c :: cs => listStarts pat (c :: cs) || containsSub pat cs

/-- JavaScript s.indexOf(pat) !== -1. -/
def strContains (s pat : String) : Bool :=
  containsSub pat.data s.data

/-- JavaScript s.startsWith(pat). -/
def strStarts (s pat : String) : Bool :=
  listStarts pat.data s.data

/-- Characters replaced by the filenamify library: the filename-reserved
characters and the ASCII control characters. -/
def reservedChar (c : Char) : Bool :=
  c == '<' || c == '>' || c == ':' || c == '"' || c == '/' || c == '\\' ||
  c == '|' || c == '?' || c == '*' || decide (c.toNat < 32)

/-- Modelled from the spec: the key sanitizer (the external filenamify
library, not part of this repository) is a pure deterministic transform
producing a string usable as a path segment, with invalid filename
characters replaced; we model it as replacing every reserved character by
the default replacement character of the library. -/
def filenamify (s : String) : String :=
  String.mk (s.data.map (fun c => if reservedChar c then '!' else c))

/-- checkPaths from cache.ts: an empty (or absent) path list is a
validation error. -/
def checkPaths : List String → Except CacheError Unit
  | [] => .error (.validation
      "Path Validation Error: At least one directory or file path is required")
  | _ :: _ => .ok ()

/-- checkKey from cache.ts: keys longer than 255 characters or containing
a comma (the regex matching only comma-free strings fails) are rejected. -/
def checkKey (key : String) : Except CacheError Unit :=
  if 255 < key.length then
    .error (.validation ("Key Validation Error: " ++ key ++
      " cannot be larger than 255 characters."))
  else if key.data.contains ',' then
    .error (.validation ("Key Validation Error: " ++ key ++
      " cannot contain commas."))
  else .ok ()

/-- Whether the string ends with the path separator. -/
def endsWithSlash (a : String) : Bool :=
  match a.data.getLast? with
  | some c => c == '/'
  | none => false

/-- Node path.join for the shapes used here: absorbs empty segments and a
trailing separator on the left segment. -/
def pathJoin (a b : String) : String :=
  if a = "" then b
  else if b = "" then a
  else if endsWithSlash a then a ++ b
  else a ++ "/" ++ b

/-- The characters before the last separator, or none when the list has no
separator. -/
def dropLastSeg : List Char → Option (List Char)
  | [] => none
  | c :: cs =>
    match dropLastSeg cs with
    | none => if c = '/' then some [] else none
    | some r => some (c :: r)

/-- Node path.dirname (posix, for paths without a trailing separator). -/
def dirname (p : String) : String :=
  match dropLastSeg p.data with
  | none => "."
  | some [] => "/"
  | some r => String.mk r

/-- Node path.basename (posix, for paths without a trailing separator). -/
def basename (p : String) : String :=
  String.mk ((p.data.reverse.takeWhile (fun c => !(c == '/'))).reverse)

/-- getCacheDirPath from cache.ts: CACHE_DIR (default /media/cache/)
joined with GITHUB_REPOSITORY (default the empty string). -/
def getCacheDirPath (env : Env) : String :=
  pathJoin (env.cacheDirVar.getD "/media/cache/") (env.githubRepository.getD "")

/-- The candidate matcher list built in restoreCache: the primary key
followed by the restore keys when a non-empty restore key array was given,
each passed through filenamify. -/
def candidateMatchers (primaryKey : String) (restoreKeys : Option (List String)) :
    List String :=
  (match restoreKeys with
    | some rk => if rk.isEmpty then [primaryKey] else primaryKey :: rk
    | none => [primaryKey]).map filenamify

/-- The fast-glob call in restoreCache with the patterns matcher followed
by a star: it lists the cache directory entries whose name starts with at
least one of the matchers (the matchers are filenamify outputs, hence free
of glob metacharacters for ordinary keys). -/
def fgFilter (matchers : List String) (dir : List Entry) : List Entry :=
  dir.filter (fun e => matchers.any (fun m => strStarts e.name m))

/-- The files of the listing counted as matches of one matcher inside
filterCacheFiles: those whose name contains the matcher (indexOf). -/
def matchesOf (m : String) (files : List Entry) : List Entry :=
  files.filter (fun f => strContains f.name m)

/-- filterCacheFiles from cache.ts: walk the matchers in order and return
the first one having at least one match, with its matches; the key is null
when no matcher matches. -/
def filterCacheFiles : List String → List Entry → Option String × List Entry
  | [], _ => (none, [])
  | m :: ms, cacheFiles =>
    let pot := matchesOf m cacheFiles
    if pot.isEmpty then filterCacheFiles ms cacheFiles
    else (some m, pot)

/-- Stable insertion into a list ordered by ascending mtimeMs: the new
element goes before the first element of not smaller mtime. -/
def insertByMtime (e : Entry) : List Entry → List Entry
  | [] => [e]
  | f :: fs =>
    if e.mtimeMs ≤ f.mtimeMs then e :: f :: fs
    else f :: insertByMtime e fs

/-- The sort performed by locateCacheFile: JavaScript Array.sort is a
stable sort, and the comparator orders by mtimeMs ascending, so the result
is the unique stable ascending ordering of the list by mtimeMs. -/
def sortByMtime : List Entry → List Entry
  | [] => []
  | e :: es => insertByMtime e (sortByMtime es)

/-- The last entry of the list attaining the maximal mtimeMs. For a stable
ascending sort followed by pop (take the last element) this is exactly the
selected entry. -/
def lastMax : List Entry → Option Entry
  | [] => none
  | e :: es =>
    match lastMax es with
    | none => some e
    | some m => if m.mtimeMs < e.mtimeMs then some e else some m

/-- locateCacheFile from cache.ts: take the first matcher with matches and
its match list; return null when the key is falsy, that is null or the
empty string (the JavaScript negation of the empty string is true);
otherwise sort the matches by mtime ascending and pop the last one. The
emptiness test of the source on the match list is subsumed here by pop
returning nothing on an empty list, which the source also guards. -/
def locateCacheFile (matchers : List String) (cacheFiles : List Entry) :
    Option (String × Entry) :=
  let r := filterCacheFiles matchers cacheFiles
  match r.fst with
  | none => none
  | some k =>
    if k = "" then none
    else
      match (sortByMtime r.snd).getLast? with
      | none => none
      | some e => some (k, e)

/-- The mkdir command issued by saveCache to create the cache directory. -/
def mkdirShellCmd (cacheDir : String) : String :=
  "mkdir -p " ++ cacheDir

/-- The pack pipeline of saveCache: tar the folder below its parent and
compress with lz4 into the cache path. -/
def saveTarCmd (baseDir folderName cachePath : String) : String :=
  "tar cf - -C " ++ baseDir ++ " " ++ folderName ++ " | lz4 -v > " ++
    cachePath ++ " 2>/dev/null"

/-- The unpack pipeline of restoreCache: decompress the cache file with
lz4 and untar into the base directory. -/
def restoreUnpackCmd (cachePath baseDir : String) : String :=
  "lz4 -d -v -c " ++ cachePath ++ " 2>/dev/null | tar xf - -C " ++ baseDir

/-- The part of restoreCache after validation: glob the cache directory
with the candidate matchers, locate the cache file, and unpack it into the
parent directory of the first path; a locator miss returns undefined with
no side effect. -/
def restoreCacheLocated (env : Env) (execFails : String → Bool)
    (dir : List Entry) (path : String) (primaryKey : String)
    (restoreKeys : Option (List String)) :
    Except CacheError (Option String) × List Effect :=
  let cacheDir := getCacheDirPath env
  let ms := candidateMatchers primaryKey restoreKeys
  match locateCacheFile ms (fgFilter ms dir) with
  | none => (.ok none, [])
  | some (key, cacheFile) =>
    let cmd := restoreUnpackCmd (pathJoin cacheDir cacheFile.path) (dirname path)
    if execFails cmd then (.error (.operational cmd), [.execCmd cmd])
    else (.ok (some key), [.execCmd cmd])

/-- restoreCache from cache.ts. The cache directory state is the argument
dir; execFails tells which shell commands would exit non-zero. -/
def restoreCache (env : Env) (execFails : String → Bool) (dir : List Entry)
    (paths : List String) (primaryKey : String)
    (restoreKeys : Option (List String)) :
    Except CacheError (Option String) × List Effect :=
  match checkKey primaryKey with
  | .error err => (.error err, [])
  | .ok _ =>
    match checkPaths paths with
    | .error err => (.error err, [])
    | .ok _ =>
      restoreCacheLocated env execFails dir (paths.headD "") primaryKey restoreKeys

/-- saveCache from cache.ts: validate, build the cache path from the
sanitized key, create the cache directory, then pack the first path. -/
def saveCache (env : Env) (execFails : String → Bool) (paths : List String)
    (key : String) : Except CacheError Nat × List Effect :=
  match checkPaths paths with
  | .error err => (.error err, [])
  | .ok _ =>
    match checkKey key with
    | .error err => (.error err, [])
    | .ok _ =>
      let path := paths.headD ""
      let cacheDir := getCacheDirPath env
      let cacheName := filenamify key ++ ".tar.lz4"
      let cachePath := pathJoin cacheDir cacheName
      let mk := mkdirShellCmd cacheDir
      if execFails mk then (.error (.operational mk), [.execCmd mk])
      else
        let cmd := saveTarCmd (dirname path) (basename path) cachePath
        if execFails cmd then
          (.error (.operational cmd), [.execCmd mk, .execCmd cmd])
        else (.ok 420, [.execCmd mk, .execCmd cmd])

/-- The first candidate key having at least one match, as the spec words
the locator walk. -/
def firstMatchingKey : List String → List Entry → Option String
  | [], _ => none
  | m :: ms, files =>
    if (matchesOf m files).isEmpty then firstMatchingKey ms files else some m

/-- True exactly on a ValidationError outcome. -/
def isValidationE {α : Type} : Except CacheError α → Bool
  | .error (.validation _) => true
  | _ => false

/-- True exactly on a ReserveCacheError outcome. -/
def isReserveE {α : Type} : Except CacheError α → Bool
  | .error (.reserveCache _) => true
  | _ => false

/-- An environment with neither CACHE_DIR nor GITHUB_REPOSITORY set. -/
def defaultEnv : Env := ⟨none, none⟩

/-- An execution oracle under which every subprocess succeeds. -/
def noFail : String → Bool := fun _ => false

/-- Changing only the modification times of the listed files. -/
def retimeBy (rt : Entry → Nat) (files : List Entry) : List Entry :=
  files.map (fun f => ⟨f.name, f.path, rt f⟩)

/-- A restore key that violates both validation rules: 300 characters,
all of them commas. -/
def badRestoreKey : String := String.mk (List.replicate 300 ',')

instance {ε α : Type} [DecidableEq ε] [DecidableEq α] :
    DecidableEq (Except ε α) := fun x y =>
  match x, y with
  | .error a, .error b =>
    if h : a = b then .isTrue (by rw [h])
    else .isFalse (fun hc => h (Except.error.inj hc))
  | .error _, .ok _ => .isFalse (fun hc => Except.noConfusion hc)
  | .ok _, .error _ => .isFalse (fun hc => Except.noConfusion hc)
  | .ok a, .ok b =>
    if h : a = b then .isTrue (by rw [h])
    else .isFalse (fun hc => h (Except.ok.inj hc))

theorem listStarts_append (l m : List Char) : listStarts l (l ++ m) = true := by
  induction l with
  | nil => rfl
  | cons a as ih => simp [listStarts, ih]

theorem containsSub_of_listStarts (pat s : List Char)
    (h : listStarts pat s = true) : containsSub pat s = true := by
  cases s with
  | nil =>
    cases pat with
    | nil => rfl
    | cons a as => simp [listStarts] at h
  | cons c cs => simp [containsSub, h]

theorem strContains_of_strStarts (s pat : String)
    (h : strStarts s pat = true) : strContains s pat = true :=
  containsSub_of_listStarts _ _ h

theorem map_sanitize_eq_self (l : List Char)
    (h : ∀ c ∈ l, reservedChar c = false) :
    l.map (fun c => if reservedChar c then '!' else c) = l := by
  induction l with
  | nil => rfl
  | cons a as ih =>
    have ha := h a (List.mem_cons_self a as)
    simp [ha, ih (fun c hc => h c (List.mem_cons_of_mem _ hc))]

theorem filenamify_of_no_reserved (s : String)
    (h : ∀ c ∈ s.data, reservedChar c = false) : filenamify s = s := by
  cases s with
  | mk l =>
    show String.mk (l.map _) = String.mk l
    rw [map_sanitize_eq_self l h]

theorem mem_filenamify_not_reserved (s : String) (c : Char)
    (hc : c ∈ (filenamify s).data) : reservedChar c = false := by
  have hc' : c ∈ s.data.map (fun c => if reservedChar c then '!' else c) := hc
  rcases List.mem_map.mp hc' with ⟨d, _, hd⟩
  by_cases h : reservedChar d = true
  · rw [if_pos h] at hd
    rw [← hd]
    decide
  · rw [if_neg h] at hd
    rw [← hd]
    exact Bool.not_eq_true _ ▸ h

theorem filenamify_idem (s : String) : filenamify (filenamify s) = filenamify s :=
  filenamify_of_no_reserved _ (fun c hc => mem_filenamify_not_reserved s c hc)

theorem filterCacheFiles_fst (ms : List String) (files : List Entry) :
    (filterCacheFiles ms files).fst = firstMatchingKey ms files := by
  induction ms with
  | nil => rfl
  | cons m ms ih =>
    simp only [filterCacheFiles, firstMatchingKey]
    by_cases h : (matchesOf m files).isEmpty
    · rw [if_pos h, if_pos h, ih]
    · rw [if_neg h, if_neg h]

theorem filterCacheFiles_fst_some (ms : List String) (files : List Entry)
    (m : String) (h : (filterCacheFiles ms files).fst = some m) :
    m ∈ ms ∧ (filterCacheFiles ms files).snd = matchesOf m files ∧
      (matchesOf m files).isEmpty = false := by
  induction ms with
  | nil => simp [filterCacheFiles] at h
  | cons a as ih =>
    simp only [filterCacheFiles] at h ⊢
    by_cases ha : (matchesOf a files).isEmpty
    · rw [if_pos ha] at h ⊢
      rcases ih h with ⟨h1, h2, h3⟩
      exact ⟨List.mem_cons_of_mem _ h1, h2, h3⟩
    · rw [if_neg ha] at h ⊢
      have hm : a = m := by simpa using h
      subst hm
      exact ⟨List.mem_cons_self _ _, rfl, by simpa using ha⟩

theorem filterCacheFiles_nil_files (ms : List String) :
    filterCacheFiles ms [] = (none, []) := by
  induction ms with
  | nil => rfl
  | cons a as ih => simp [filterCacheFiles, matchesOf, ih]

theorem isEmpty_map {α β : Type} (f : α → β) (l : List α) :
    (l.map f).isEmpty = l.isEmpty := by
  cases l <;> rfl

theorem matchesOf_retimeBy (m : String) (files : List Entry) (rt : Entry → Nat) :
    matchesOf m (retimeBy rt files) = retimeBy rt (matchesOf m files) := by
  induction files with
  | nil => rfl
  | cons f fs ih =>
    simp only [retimeBy, matchesOf, List.map, List.filter] at ih ⊢
    by_cases h : strContains f.name m
    · simp only [h, if_pos] at ih ⊢
      simp [h, ih]
    · simp [h, ih]

theorem fgFilter_retimeBy (ms : List String) (dir : List Entry) (rt : Entry → Nat) :
    fgFilter ms (retimeBy rt dir) = retimeBy rt (fgFilter ms dir) := by
  induction dir with
  | nil => rfl
  | cons f fs ih =>
    simp only [retimeBy, fgFilter, List.map, List.filter] at ih ⊢
    by_cases h : ms.any (fun m => strStarts f.name m)
    · simp [h, ih]
    · simp [h, ih]

theorem filterCacheFiles_fst_retimeBy (ms : List String) (files : List Entry)
    (rt : Entry → Nat) :
    (filterCacheFiles ms (retimeBy rt files)).fst =
      (filterCacheFiles ms files).fst := by
  induction ms with
  | nil => rfl
  | cons a as ih =>
    simp only [filterCacheFiles]
    rw [matchesOf_retimeBy]
    rw [show (retimeBy rt (matchesOf a files)).isEmpty = (matchesOf a files).isEmpty
      from isEmpty_map _ _]
    by_cases h : (matchesOf a files).isEmpty
    · rw [if_pos h, if_pos h, ih]
    · rw [if_neg h, if_neg h]

theorem lastMax_mem (l : List Entry) (m : Entry) (h : lastMax l = some m) :
    m ∈ l := by
  induction l with
  | nil => simp [lastMax] at h
  | cons e es ih =>
    cases hes : lastMax es with
    | none =>
      simp only [lastMax, hes] at h
      injection h with h
      subst h
      exact List.mem_cons_self _ _
    | some m2 =>
      simp only [lastMax, hes] at h
      by_cases hlt : m2.mtimeMs < e.mtimeMs
      · rw [if_pos hlt] at h
        injection h with h
        subst h
        exact List.mem_cons_self _ _
      · rw [if_neg hlt] at h
        injection h with h
        subst h
        exact List.mem_cons_of_mem _ (ih hes)

theorem lastMax_eq_none (l : List Entry) (h : lastMax l = none) : l = [] := by
  cases l with
  | nil => rfl
  | cons e es =>
    exfalso
    cases hes : lastMax es with
    | none =>
      simp only [lastMax, hes] at h
      exact Option.noConfusion h
    | some m2 =>
      simp only [lastMax, hes] at h
      by_cases hlt : m2.mtimeMs < e.mtimeMs
      · rw [if_pos hlt] at h; exact Option.noConfusion h
      · rw [if_neg hlt] at h; exact Option.noConfusion h

theorem lastMax_of_ne_nil (l : List Entry) (h : l ≠ []) :
    ∃ m, lastMax l = some m := by
  cases hl : lastMax l with
  | none => exact absurd (lastMax_eq_none l hl) h
  | some m => exact ⟨m, rfl⟩

theorem lastMax_le (l : List Entry) :
    ∀ m : Entry, lastMax l = some m → ∀ x ∈ l, x.mtimeMs ≤ m.mtimeMs := by
  induction l with
  | nil => intro m h; simp [lastMax] at h
  | cons e es ih =>
    intro m h x hx
    cases hes : lastMax es with
    | none =>
      simp only [lastMax, hes] at h
      injection h with h
      have hem : e.mtimeMs = m.mtimeMs := by rw [h]
      have hnil : es = [] := lastMax_eq_none es hes
      subst hnil
      have hxe : x = e := List.mem_singleton.mp hx
      have hxm : x.mtimeMs = e.mtimeMs := by rw [hxe]
      omega
    | some m2 =>
      simp only [lastMax, hes] at h
      by_cases hlt : m2.mtimeMs < e.mtimeMs
      · rw [if_pos hlt] at h
        injection h with h
        have hem : e.mtimeMs = m.mtimeMs := by rw [h]
        rcases List.mem_cons.mp hx with hx2 | hx2
        · have hxm : x.mtimeMs = e.mtimeMs := by rw [hx2]
          omega
        · have h1 := ih m2 hes x hx2
          omega
      · rw [if_neg hlt] at h
        injection h with h
        have hm2m : m2.mtimeMs = m.mtimeMs := by rw [h]
        rcases List.mem_cons.mp hx with hx2 | hx2
        · have hxm : x.mtimeMs = e.mtimeMs := by rw [hx2]
          omega
        · have h1 := ih m2 hes x hx2
          omega

theorem insertByMtime_ne_nil (e : Entry) (l : List Entry) :
    insertByMtime e l ≠ [] := by
  cases l with
  | nil => simp [insertByMtime]
  | cons f fs =>
    simp only [insertByMtime]
    split <;> simp

theorem mem_insertByMtime (x e : Entry) (l : List Entry) :
    x ∈ insertByMtime e l ↔ x = e ∨ x ∈ l := by
  induction l with
  | nil => simp [insertByMtime]
  | cons f fs ih =>
    simp only [insertByMtime]
    split
    · simp [List.mem_cons]
    · simp only [List.mem_cons, ih]
      tauto

theorem mem_sortByMtime (x : Entry) (l : List Entry) :
    x ∈ sortByMtime l ↔ x ∈ l := by
  induction l with
  | nil => simp [sortByMtime]
  | cons e es ih =>
    simp only [sortByMtime, mem_insertByMtime, List.mem_cons, ih]

theorem getLast?_insertByMtime (e : Entry) (l : List Entry) :
    (insertByMtime e l).getLast? =
      if ∃ f ∈ l, e.mtimeMs ≤ f.mtimeMs then l.getLast? else some e := by
  induction l with
  | nil => simp [insertByMtime]
  | cons f fs ih =>
    simp only [insertByMtime]
    by_cases h : e.mtimeMs ≤ f.mtimeMs
    · rw [if_pos h, List.getLast?_cons_cons,
        if_pos ⟨f, List.mem_cons_self f fs, h⟩]
    · rw [if_neg h]
      obtain ⟨y, ys, hX⟩ :=
        List.exists_cons_of_ne_nil (insertByMtime_ne_nil e fs)
      rw [hX, List.getLast?_cons_cons, ← hX, ih]
      by_cases hfs : ∃ g ∈ fs, e.mtimeMs ≤ g.mtimeMs
      · rw [if_pos hfs]
        obtain ⟨g, hg, hge⟩ := hfs
        have hcond : ∃ g2 ∈ f :: fs, e.mtimeMs ≤ g2.mtimeMs :=
          ⟨g, List.mem_cons_of_mem _ hg, hge⟩
        rw [if_pos hcond]
        obtain ⟨z, zs, rfl⟩ := List.exists_cons_of_ne_nil (List.ne_nil_of_mem hg)
        rw [List.getLast?_cons_cons]
      · rw [if_neg hfs]
        have hcond : ¬ ∃ g2 ∈ f :: fs, e.mtimeMs ≤ g2.mtimeMs := by
          rintro ⟨g2, hg2, hge2⟩
          rcases List.mem_cons.mp hg2 with rfl | hg2'
          · exact h hge2
          · exact hfs ⟨g2, hg2', hge2⟩
        rw [if_neg hcond]

theorem getLast?_sortByMtime (l : List Entry) :
    (sortByMtime l).getLast? = lastMax l := by
  induction l with
  | nil => rfl
  | cons e es ih =>
    rw [show sortByMtime (e :: es) = insertByMtime e (sortByMtime es) from rfl,
      getLast?_insertByMtime, ih]
    cases hm : lastMax es with
    | none =>
      have hes : es = [] := lastMax_eq_none es hm
      subst hes
      simp [lastMax, sortByMtime]
    | some m =>
      have hmes : m ∈ es := lastMax_mem es m hm
      simp only [lastMax, hm]
      by_cases hle : e.mtimeMs ≤ m.mtimeMs
      · rw [if_pos ⟨m, (mem_sortByMtime m es).mpr hmes, hle⟩,
          if_neg (Nat.not_lt.mpr hle)]
      · have hcond : ¬ ∃ f ∈ sortByMtime es, e.mtimeMs ≤ f.mtimeMs := by
          rintro ⟨f, hf, hef⟩
          exact hle (le_trans hef (lastMax_le es m hm f ((mem_sortByMtime f es).mp hf)))
        rw [if_neg hcond, if_pos (Nat.lt_of_not_le hle)]

theorem locateCacheFile_intro (ms : List String) (files : List Entry)
    (k : String) (e : Entry)
    (h1 : (filterCacheFiles ms files).fst = some k) (h2 : k ≠ "")
    (h3 : lastMax (filterCacheFiles ms files).snd = some e) :
    locateCacheFile ms files = some (k, e) := by
  simp only [locateCacheFile, h1]
  rw [if_neg h2, getLast?_sortByMtime, h3]

theorem locateCacheFile_some (ms : List String) (files : List Entry)
    (k : String) (e : Entry) (h : locateCacheFile ms files = some (k, e)) :
    (filterCacheFiles ms files).fst = some k ∧ k ≠ "" ∧
      lastMax (filterCacheFiles ms files).snd = some e := by
  simp only [locateCacheFile] at h
  cases hfst : (filterCacheFiles ms files).fst with
  | none =>
    simp only [hfst] at h
    exact Option.noConfusion h
  | some k2 =>
    simp only [hfst] at h
    by_cases hk : k2 = ""
    · rw [if_pos hk] at h
      exact Option.noConfusion h
    · rw [if_neg hk] at h
      cases hlast : (sortByMtime (filterCacheFiles ms files).snd).getLast? with
      | none =>
        simp only [hlast] at h
        exact Option.noConfusion h
      | some e2 =>
        simp only [hlast] at h
        injection h with h
        injection h with h1 h2
        subst h1
        subst h2
        rw [getLast?_sortByMtime] at hlast
        exact ⟨rfl, hk, hlast⟩

theorem checkKey_cases (K : String) :
    checkKey K = .ok () ∨ ∃ msg, checkKey K = .error (.validation msg) := by
  unfold checkKey
  by_cases h1 : 255 < K.length
  · rw [if_pos h1]; exact Or.inr ⟨_, rfl⟩
  · rw [if_neg h1]
    by_cases h2 : K.data.contains ',' = true
    · rw [if_pos h2]; exact Or.inr ⟨_, rfl⟩
    · rw [if_neg h2]; exact Or.inl rfl

theorem checkKey_invalid (K : String)
    (h : 255 < K.length ∨ K.data.contains ',' = true) :
    ∃ msg, checkKey K = .error (.validation msg) := by
  unfold checkKey
  by_cases h1 : 255 < K.length
  · rw [if_pos h1]; exact ⟨_, rfl⟩
  · rw [if_neg h1]
    rcases h with h | h
    · exact absurd h h1
    · rw [if_pos h]; exact ⟨_, rfl⟩

theorem restoreCacheLocated_none (env : Env) (ef : String → Bool)
    (dir : List Entry) (path K : String) (rk : Option (List String))
    (h : locateCacheFile (candidateMatchers K rk)
      (fgFilter (candidateMatchers K rk) dir) = none) :
    restoreCacheLocated env ef dir path K rk = (.ok none, []) := by
  simp only [restoreCacheLocated, h]

theorem restoreCacheLocated_some (env : Env) (ef : String → Bool)
    (dir : List Entry) (path K : String) (rk : Option (List String))
    (k : String) (e : Entry)
    (h : locateCacheFile (candidateMatchers K rk)
      (fgFilter (candidateMatchers K rk) dir) = some (k, e))
    (hef : ef (restoreUnpackCmd (pathJoin (getCacheDirPath env) e.path)
      (dirname path)) = false) :
    restoreCacheLocated env ef dir path K rk =
      (.ok (some k), [.execCmd (restoreUnpackCmd
        (pathJoin (getCacheDirPath env) e.path) (dirname path))]) := by
  simp only [restoreCacheLocated, h]
  rw [if_neg (by simp [hef])]

theorem restoreCache_cons (env : Env) (ef : String → Bool) (dir : List Entry)
    (p : String) (rest : List String) (K : String)
    (rk : Option (List String)) (hK : checkKey K = .ok ()) :
    restoreCache env ef dir (p :: rest) K rk =
      restoreCacheLocated env ef dir p K rk := by
  simp only [restoreCache, hK, checkPaths, List.headD]

theorem restoreCache_invalidKey (env : Env) (ef : String → Bool)
    (dir : List Entry) (paths : List String) (K : String)
    (rk : Option (List String)) (msg : String)
    (hK : checkKey K = .error (.validation msg)) :
    restoreCache env ef dir paths K rk = (.error (.validation msg), []) := by
  simp only [restoreCache, hK]

theorem restoreCache_nilPaths (env : Env) (ef : String → Bool)
    (dir : List Entry) (K : String) (rk : Option (List String))
    (hK : checkKey K = .ok ()) :
    restoreCache env ef dir [] K rk =
      (.error (.validation
        "Path Validation Error: At least one directory or file path is required"),
       []) := by
  simp only [restoreCache, hK, checkPaths]

theorem saveCache_nilPaths (env : Env) (ef : String → Bool) (K : String) :
    saveCache env ef [] K =
      (.error (.validation
        "Path Validation Error: At least one directory or file path is required"),
       []) := by
  simp only [saveCache, checkPaths]

theorem saveCache_invalidKey (env : Env) (ef : String → Bool)
    (p : String) (rest : List String) (K : String) (msg : String)
    (hK : checkKey K = .error (.validation msg)) :
    saveCache env ef (p :: rest) K = (.error (.validation msg), []) := by
  simp only [saveCache, checkPaths, hK]

theorem isEmpty_false_of_ne_nil {α : Type} (l : List α) (h : l ≠ []) :
    l.isEmpty = false := by
  cases l with
  | nil => exact absurd rfl h
  | cons a as => rfl

theorem saveCache_ok (env : Env) (ef : String → Bool) (p : String)
    (rest : List String) (K : String) (hK : checkKey K = .ok ())
    (hef : ∀ c, ef c = false) :
    saveCache env ef (p :: rest) K =
      (.ok 420, [.execCmd (mkdirShellCmd (getCacheDirPath env)),
        .execCmd (saveTarCmd (dirname p) (basename p)
          (pathJoin (getCacheDirPath env) (filenamify K ++ ".tar.lz4")))]) := by
  simp only [saveCache, checkPaths, hK, List.headD]
  rw [if_neg (by simp [hef])]
  rw [if_neg (by simp [hef])]

/-- C1 (amended): the locator walks the candidate list in order, and the
first candidate with at least one matching file is reported as the matched
key provided that candidate is non-empty after sanitization (a located
empty-string key is discarded by the falsiness check of the source and
reported as no match); the walk does not depend on modification times; and
a restore that resolves while the primary candidate has no matching file
returns a key different from the primary key, that is a fallback hit. -/
theorem c1_locator_first_match (matchers : List String) (files : List Entry) :
    (∀ k e, locateCacheFile matchers files = some (k, e) →
      firstMatchingKey matchers files = some k ∧ k ≠ "")
  ∧ (∀ k, firstMatchingKey matchers files = some k → k ≠ "" →
      ∃ e, locateCacheFile matchers files = some (k, e) ∧
        e ∈ matchesOf k files)
  ∧ (∀ (dir : List Entry) (rt : Entry → Nat),
      (filterCacheFiles matchers (fgFilter matchers (retimeBy rt dir))).fst =
        (filterCacheFiles matchers (fgFilter matchers dir)).fst)
  ∧ (∀ (env : Env) (ef : String → Bool) (dir : List Entry)
      (paths : List String) (pk : String) (rk : List String) (k : String),
      (restoreCache env ef dir paths pk (some rk)).fst = .ok (some k) →
      matchesOf (filenamify pk)
        (fgFilter (candidateMatchers pk (some rk)) dir) = [] →
      k ≠ pk) := by
  refine ⟨?_, ?_, ?_, ?_⟩
  · intro k e h
    obtain ⟨h1, hk, _⟩ := locateCacheFile_some _ _ _ _ h
    rw [filterCacheFiles_fst] at h1
    exact ⟨h1, hk⟩
  · intro k h hk
    have h1 : (filterCacheFiles matchers files).fst = some k := by
      rw [filterCacheFiles_fst]; exact h
    obtain ⟨hmem, hsnd, hne⟩ := filterCacheFiles_fst_some _ _ _ h1
    have hne2 : matchesOf k files ≠ [] := by
      intro h0
      rw [h0] at hne
      simp at hne
    obtain ⟨m, hm⟩ := lastMax_of_ne_nil _ hne2
    have hlast : lastMax (filterCacheFiles matchers files).snd = some m := by
      rw [hsnd]; exact hm
    exact ⟨m, locateCacheFile_intro _ _ _ _ h1 hk hlast,
      lastMax_mem _ _ hm⟩
  · intro dir rt
    rw [fgFilter_retimeBy, filterCacheFiles_fst_retimeBy]
  · intro env ef dir paths pk rk k hres hempty
    rcases checkKey_cases pk with hK | ⟨msg, hK⟩
    · cases paths with
      | nil =>
        rw [restoreCache_nilPaths _ _ _ _ _ hK] at hres
        exact Except.noConfusion hres
      | cons p rest =>
        rw [restoreCache_cons _ _ _ _ _ _ _ hK] at hres
        simp only [restoreCacheLocated] at hres
        cases hloc : locateCacheFile (candidateMatchers pk (some rk))
            (fgFilter (candidateMatchers pk (some rk)) dir) with
        | none =>
          simp only [hloc] at hres
          have := Except.ok.inj hres
          exact Option.noConfusion this
        | some pr =>
          cases pr with
          | mk k2 e =>
            simp only [hloc] at hres
            by_cases hef : ef (restoreUnpackCmd
                (pathJoin (getCacheDirPath env) e.path) (dirname p)) = true
            · rw [if_pos hef] at hres
              exact Except.noConfusion hres
            · rw [if_neg hef] at hres
              have hk2 : some k2 = some k := Except.ok.inj hres
              have hkk : k2 = k := Option.some.inj hk2
              subst hkk
              obtain ⟨h1, hkne, _⟩ := locateCacheFile_some _ _ _ _ hloc
              obtain ⟨hmem, hsnd, hne⟩ := filterCacheFiles_fst_some _ _ _ h1
              intro heq
              simp only [candidateMatchers] at hmem
              obtain ⟨orig, _, horig⟩ := List.mem_map.mp hmem
              have hkfix : filenamify k2 = k2 := by
                rw [← horig, filenamify_idem]
              have hfpk : filenamify pk = k2 := by
                rw [← heq, hkfix]
              rw [hfpk] at hempty
              rw [hempty] at hne
              simp at hne
    · rw [restoreCache_invalidKey _ _ _ _ _ _ _ hK] at hres
      exact Except.noConfusion hres

/-- Witness for C1: on a cache listing with one file for the key, the
locator reports that key as the first matching candidate, and the key is
non-empty. -/
theorem c1_witness :
    firstMatchingKey ["v1-deps"] [⟨"v1-deps.tar.lz4", "v1-deps.tar.lz4", 5⟩]
      = some "v1-deps" ∧ ("v1-deps" : String) ≠ "" :=
  (c1_locator_first_match ["v1-deps"]
    [⟨"v1-deps.tar.lz4", "v1-deps.tar.lz4", 5⟩]).1 "v1-deps"
    ⟨"v1-deps.tar.lz4", "v1-deps.tar.lz4", 5⟩ (by decide)

/-- Counterexample to C1 as stated: with the empty string as primary key
(which passes validation) and a non-empty cache directory, the first and
only candidate has a matching file, yet restore reports no match, because
the located empty-string key is falsy in the source. -/
theorem c1_counterexample :
    restoreCache defaultEnv noFail [⟨"x.tar.lz4", "x.tar.lz4", 1⟩]
      ["data"] "" none = (.ok none, [])
  ∧ matchesOf (filenamify "")
      (fgFilter (candidateMatchers "" none) [⟨"x.tar.lz4", "x.tar.lz4", 1⟩])
      ≠ [] := by
  constructor
  · rfl
  · decide

/-- C2 (amended): inside the restore pipeline a listed file counts as a
match of a candidate if and only if it is a directory entry whose name
starts with at least one of the candidates (the glob step) and whose name
contains the candidate as a substring (the indexOf step); in particular a
name starting with the candidate always counts as a match, but a file can
also count as a match of a candidate that is not a prefix of its name when
another candidate put it into the listing. -/
theorem c2_match_characterization (matchers : List String) (dir : List Entry)
    (m : String) (e : Entry) :
    (e ∈ matchesOf m (fgFilter matchers dir) ↔
      e ∈ dir ∧ (∃ m2 ∈ matchers, strStarts e.name m2 = true) ∧
        strContains e.name m = true)
  ∧ (m ∈ matchers → e ∈ dir → strStarts e.name m = true →
      e ∈ matchesOf m (fgFilter matchers dir)) := by
  constructor
  · simp only [matchesOf, fgFilter, List.mem_filter, List.any_eq_true,
      and_assoc]
  · intro hm he hs
    have hc : strContains e.name m = true := strContains_of_strStarts _ _ hs
    simp only [matchesOf, fgFilter, List.mem_filter, List.any_eq_true]
    exact ⟨⟨he, ⟨m, hm, hs⟩⟩, hc⟩

/-- Witness for C2: a file whose name starts with the candidate counts as
a match of that candidate. -/
theorem c2_witness :
    (⟨"foo-1.tar.lz4", "foo-1.tar.lz4", 2⟩ : Entry) ∈
      matchesOf "foo" (fgFilter ["foo"]
        [⟨"foo-1.tar.lz4", "foo-1.tar.lz4", 2⟩]) :=
  (c2_match_characterization ["foo"] [⟨"foo-1.tar.lz4", "foo-1.tar.lz4", 2⟩]
    "foo" ⟨"foo-1.tar.lz4", "foo-1.tar.lz4", 2⟩).2
    (by decide) (by decide) (by decide)

/-- Counterexample to C2 as stated: with candidates foo and bar, the file
named bar-foo.tar.lz4 is listed through the bar glob pattern and then
counts as a match of candidate foo by the substring test, although its
name does not start with foo; the locator even reports foo as the matched
key. -/
theorem c2_counterexample :
    (⟨"bar-foo.tar.lz4", "bar-foo.tar.lz4", 7⟩ : Entry) ∈
      matchesOf "foo" (fgFilter ["foo", "bar"]
        [⟨"bar-foo.tar.lz4", "bar-foo.tar.lz4", 7⟩])
  ∧ strStarts "bar-foo.tar.lz4" "foo" = false
  ∧ (filterCacheFiles ["foo", "bar"] (fgFilter ["foo", "bar"]
      [⟨"bar-foo.tar.lz4", "bar-foo.tar.lz4", 7⟩])).fst = some "foo" := by
  decide

/-- C3: when the locator returns an entry, that entry is one of the files
matching the matched key, it carries the largest modification time among
them, it is exactly the last entry of the listing attaining that maximum
(the deterministic tie-break induced by the stable ascending sort followed
by pop), and when a single entry is strictly newest it is the one
selected. -/
theorem c3_latest_selected (matchers : List String) (files : List Entry)
    (k : String) (e : Entry)
    (h : locateCacheFile matchers files = some (k, e)) :
    e ∈ (filterCacheFiles matchers files).snd
  ∧ (∀ f ∈ (filterCacheFiles matchers files).snd, f.mtimeMs ≤ e.mtimeMs)
  ∧ lastMax (filterCacheFiles matchers files).snd = some e
  ∧ (∀ g ∈ (filterCacheFiles matchers files).snd,
      (∀ f ∈ (filterCacheFiles matchers files).snd,
        f ≠ g → f.mtimeMs < g.mtimeMs) → e = g) := by
  obtain ⟨h1, hk, h3⟩ := locateCacheFile_some _ _ _ _ h
  refine ⟨lastMax_mem _ _ h3, lastMax_le _ _ h3, h3, ?_⟩
  intro g hg huniq
  by_cases heg : e = g
  · exact heg
  · have h4 : e.mtimeMs < g.mtimeMs :=
      huniq e (lastMax_mem _ _ h3) heg
    have h5 : g.mtimeMs ≤ e.mtimeMs := lastMax_le _ _ h3 g hg
    omega

/-- Witness for C3: among three matching files with modification times
5, 9, 9 the selected entry is the last one attaining the maximum 9. -/
theorem c3_witness :
    lastMax (filterCacheFiles ["k"]
      [⟨"k-a", "k-a", 5⟩, ⟨"k-b", "k-b", 9⟩, ⟨"k-c", "k-c", 9⟩]).snd
      = some ⟨"k-c", "k-c", 9⟩ :=
  (c3_latest_selected ["k"]
    [⟨"k-a", "k-a", 5⟩, ⟨"k-b", "k-b", 9⟩, ⟨"k-c", "k-c", 9⟩]
    "k" ⟨"k-c", "k-c", 9⟩ (by decide)).2.2.1

/-- C4 (amended): after a save under key K, a restore with primary key K
and no restore keys reports the sanitized key filenamify K (provided it is
non-empty); the reported key equals K itself exactly when K contains no
reserved filename characters, so sanitization leaves it unchanged. -/
theorem c4_exact_hit_returns_sanitized_key (env : Env) (ef : String → Bool)
    (dir : List Entry) (p : String) (rest : List String) (K pa : String)
    (t : Nat) (hK : checkKey K = .ok ())
    (hmem : (⟨filenamify K ++ ".tar.lz4", pa, t⟩ : Entry) ∈ dir)
    (hne : filenamify K ≠ "") (hef : ∀ c, ef c = false) :
    (restoreCache env ef dir (p :: rest) K none).fst =
      .ok (some (filenamify K))
  ∧ ((∀ c ∈ K.data, reservedChar c = false) → filenamify K = K) := by
  constructor
  · rw [restoreCache_cons _ _ _ _ _ _ _ hK]
    have hstart : strStarts (filenamify K ++ ".tar.lz4") (filenamify K)
        = true := by
      simp only [strStarts, String.data_append]
      exact listStarts_append _ _
    have hfg : (⟨filenamify K ++ ".tar.lz4", pa, t⟩ : Entry) ∈
        fgFilter [filenamify K] dir := by
      simp only [fgFilter, List.mem_filter]
      refine ⟨hmem, ?_⟩
      simp only [List.any_eq_true]
      exact ⟨filenamify K, List.mem_singleton.mpr rfl, hstart⟩
    have hmatch : (⟨filenamify K ++ ".tar.lz4", pa, t⟩ : Entry) ∈
        matchesOf (filenamify K) (fgFilter [filenamify K] dir) := by
      simp only [matchesOf, List.mem_filter]
      exact ⟨hfg, strContains_of_strStarts _ _ hstart⟩
    have hne2 : matchesOf (filenamify K) (fgFilter [filenamify K] dir) ≠ [] :=
      List.ne_nil_of_mem hmatch
    have hfst : (filterCacheFiles [filenamify K]
        (fgFilter [filenamify K] dir)).fst = some (filenamify K) := by
      simp only [filterCacheFiles]
      rw [if_neg (by rw [isEmpty_false_of_ne_nil _ hne2]; exact Bool.false_ne_true)]
    have hsnd := (filterCacheFiles_fst_some _ _ _ hfst).2.1
    obtain ⟨m, hm⟩ := lastMax_of_ne_nil _ hne2
    have hlast : lastMax (filterCacheFiles [filenamify K]
        (fgFilter [filenamify K] dir)).snd = some m := by
      rw [hsnd]; exact hm
    have hloc := locateCacheFile_intro _ _ _ _ hfst hne hlast
    rw [restoreCacheLocated_some env ef dir p K none (filenamify K) m hloc
      (hef _)]
  · intro hres
    exact filenamify_of_no_reserved K hres

/-- Witness for C4 (amended): a concrete exact-hit restore reports the
sanitized primary key. -/
theorem c4_witness :
    (restoreCache defaultEnv noFail [⟨"mykey.tar.lz4", "mykey.tar.lz4", 3⟩]
      ["data"] "mykey" none).fst = .ok (some (filenamify "mykey")) :=
  (c4_exact_hit_returns_sanitized_key defaultEnv noFail
    [⟨"mykey.tar.lz4", "mykey.tar.lz4", 3⟩] "data" [] "mykey"
    "mykey.tar.lz4" 3 (by decide) (by decide) (by decide)
    (fun c => rfl)).1

/-- Counterexample to C4 as stated: the key a/b passes validation, save
stores the entry under the sanitized name a!b.tar.lz4, and the subsequent
restore with the same key reports the matched key a!b, which differs from
the original key a/b. -/
theorem c4_counterexample :
    checkKey "a/b" = .ok ()
  ∧ (saveCache defaultEnv noFail ["data"] "a/b").snd =
      [.execCmd (mkdirShellCmd (getCacheDirPath defaultEnv)),
       .execCmd (saveTarCmd "." "data"
         (pathJoin (getCacheDirPath defaultEnv) "a!b.tar.lz4"))]
  ∧ (restoreCache defaultEnv noFail
      [⟨"a!b.tar.lz4", "a!b.tar.lz4", 3⟩] ["data"] "a/b" none).fst =
        .ok (some "a!b")
  ∧ ("a!b" : String) ≠ "a/b" := by
  decide

/-- C5: save and restore called with a key longer than 255 characters or a
key containing a comma fail with ValidationError, and called with an empty
path list fail with ValidationError; in every such case no command is
executed, so the failure precedes any filesystem side effect. -/
theorem c5_validation (env : Env) (ef : String → Bool) (dir : List Entry)
    (paths : List String) (K : String) (rk : Option (List String)) :
    ((255 < K.length ∨ K.data.contains ',' = true) →
        isValidationE (restoreCache env ef dir paths K rk).fst = true
      ∧ (restoreCache env ef dir paths K rk).snd = []
      ∧ isValidationE (saveCache env ef paths K).fst = true
      ∧ (saveCache env ef paths K).snd = [])
  ∧ (paths = [] →
        isValidationE (restoreCache env ef dir paths K rk).fst = true
      ∧ (restoreCache env ef dir paths K rk).snd = []
      ∧ isValidationE (saveCache env ef paths K).fst = true
      ∧ (saveCache env ef paths K).snd = []) := by
  constructor
  · intro hbad
    obtain ⟨msg, hK⟩ := checkKey_invalid K hbad
    refine ⟨?_, ?_, ?_, ?_⟩
    · rw [restoreCache_invalidKey _ _ _ _ _ _ _ hK]; rfl
    · rw [restoreCache_invalidKey _ _ _ _ _ _ _ hK]
    · cases paths with
      | nil => rw [saveCache_nilPaths]; rfl
      | cons p rest => rw [saveCache_invalidKey _ _ _ _ _ _ hK]; rfl
    · cases paths with
      | nil => rw [saveCache_nilPaths]
      | cons p rest => rw [saveCache_invalidKey _ _ _ _ _ _ hK]
  · intro hnil
    subst hnil
    refine ⟨?_, ?_, ?_, ?_⟩
    · rcases checkKey_cases K with hK | ⟨msg, hK⟩
      · rw [restoreCache_nilPaths _ _ _ _ _ hK]; rfl
      · rw [restoreCache_invalidKey _ _ _ _ _ _ _ hK]; rfl
    · rcases checkKey_cases K with hK | ⟨msg, hK⟩
      · rw [restoreCache_nilPaths _ _ _ _ _ hK]
      · rw [restoreCache_invalidKey _ _ _ _ _ _ _ hK]
    · rw [saveCache_nilPaths]; rfl
    · rw [saveCache_nilPaths]

/-- Witness for C5: a key containing a comma makes restore fail with
ValidationError, and save on an empty path list executes no command. -/
theorem c5_witness :
    isValidationE (restoreCache defaultEnv noFail [] ["p"] "a,b" none).fst
      = true
  ∧ (saveCache defaultEnv noFail [] "x").snd = [] :=
  ⟨((c5_validation defaultEnv noFail [] ["p"] "a,b" none).1
      (Or.inr (by decide))).1,
   ((c5_validation defaultEnv noFail [] [] "x" none).2 rfl).2.2.2⟩

/-- C6: when no candidate key has any matching file in the cache
directory, restore returns the explicit no-match result, throws no error,
and executes no command. -/
theorem c6_no_match_no_side_effect (env : Env) (ef : String → Bool)
    (dir : List Entry) (p : String) (rest : List String) (K : String)
    (rk : Option (List String)) (hK : checkKey K = .ok ())
    (hnomatch : ∀ e ∈ dir, ∀ m ∈ candidateMatchers K rk,
      strStarts e.name m = false) :
    restoreCache env ef dir (p :: rest) K rk = (.ok none, []) := by
  rw [restoreCache_cons _ _ _ _ _ _ _ hK]
  have hfg : fgFilter (candidateMatchers K rk) dir = [] := by
    simp only [fgFilter]
    rw [List.filter_eq_nil_iff]
    intro e he
    simp only [List.any_eq_true]
    rintro ⟨m, hm, hsm⟩
    rw [hnomatch e he m hm] at hsm
    exact Bool.noConfusion hsm
  have hloc : locateCacheFile (candidateMatchers K rk)
      (fgFilter (candidateMatchers K rk) dir) = none := by
    rw [hfg]
    simp only [locateCacheFile, filterCacheFiles_nil_files]
  exact restoreCacheLocated_none env ef dir p K rk hloc

/-- Witness for C6: a restore whose only candidate matches no file returns
the no-match result with an empty command trace. -/
theorem c6_witness :
    restoreCache defaultEnv noFail [⟨"zzz.tar.lz4", "zzz.tar.lz4", 1⟩]
      ["data"] "aa" none = (.ok none, []) :=
  c6_no_match_no_side_effect defaultEnv noFail
    [⟨"zzz.tar.lz4", "zzz.tar.lz4", 1⟩] "data" [] "aa" none
    (by decide) (by decide)

/-- C7: save and restore depend on the path list only through its first
element; a successful save packs the basename of the first path from its
parent directory into the archive; a successful restore unpacks the
located archive into the parent directory of the first path. -/
theorem c7_only_first_path (env : Env) (ef : String → Bool)
    (dir : List Entry) (K : String) (rk : Option (List String))
    (p : String) (rest rest2 : List String) :
    saveCache env ef (p :: rest) K = saveCache env ef (p :: rest2) K
  ∧ restoreCache env ef dir (p :: rest) K rk =
      restoreCache env ef dir (p :: rest2) K rk
  ∧ (checkKey K = .ok () → (∀ c, ef c = false) →
      (saveCache env ef (p :: rest) K).snd =
        [.execCmd (mkdirShellCmd (getCacheDirPath env)),
         .execCmd (saveTarCmd (dirname p) (basename p)
           (pathJoin (getCacheDirPath env) (filenamify K ++ ".tar.lz4")))])
  ∧ (∀ k e, checkKey K = .ok () →
      locateCacheFile (candidateMatchers K rk)
        (fgFilter (candidateMatchers K rk) dir) = some (k, e) →
      ef (restoreUnpackCmd (pathJoin (getCacheDirPath env) e.path)
        (dirname p)) = false →
      (restoreCache env ef dir (p :: rest) K rk).snd =
        [.execCmd (restoreUnpackCmd (pathJoin (getCacheDirPath env) e.path)
          (dirname p))]) := by
  refine ⟨?_, ?_, ?_, ?_⟩
  · simp only [saveCache, checkPaths, List.headD]
  · simp only [restoreCache, checkPaths, List.headD]
  · intro hK hef
    rw [saveCache_ok _ _ _ _ _ hK hef]
  · intro k e hK hloc hef
    rw [restoreCache_cons _ _ _ _ _ _ _ hK,
      restoreCacheLocated_some _ _ _ _ _ _ _ _ hloc hef]

/-- Witness for C7: a concrete save with a two-element path list executes
exactly the directory creation and the pack pipeline built from the first
path only. -/
theorem c7_witness :
    (saveCache defaultEnv noFail ["data/sub", "extra"] "k").snd =
      [.execCmd (mkdirShellCmd (getCacheDirPath defaultEnv)),
       .execCmd (saveTarCmd (dirname "data/sub") (basename "data/sub")
         (pathJoin (getCacheDirPath defaultEnv)
           (filenamify "k" ++ ".tar.lz4")))] :=
  (c7_only_first_path defaultEnv noFail [] "k" none "data/sub"
    ["extra"] []).2.2.1 (by decide) (fun c => rfl)

/-- C8: a save with key K writes the cache entry at the path obtained by
joining CACHE_DIR (default /media/cache/) with the repository scope and
then with the sanitized key plus the fixed extension .tar.lz4. -/
theorem c8_save_path (env : Env) (ef : String → Bool) (p : String)
    (rest : List String) (K : String) (hK : checkKey K = .ok ())
    (hef : ∀ c, ef c = false) :
    (saveCache env ef (p :: rest) K).snd =
      [.execCmd (mkdirShellCmd
        (pathJoin (env.cacheDirVar.getD "/media/cache/")
          (env.githubRepository.getD ""))),
       .execCmd (saveTarCmd (dirname p) (basename p)
         (pathJoin (pathJoin (env.cacheDirVar.getD "/media/cache/")
           (env.githubRepository.getD ""))
           (filenamify K ++ ".tar.lz4")))] := by
  rw [saveCache_ok _ _ _ _ _ hK hef]
  rfl

/-- Witness for C8: with CACHE_DIR and the repository scope both set, the
save commands target the joined cache directory and the sanitized key plus
the archive extension. -/
theorem c8_witness :
    (saveCache ⟨some "/tmp/cache", some "org/repo"⟩ noFail ["data"]
      "v1-deps").snd =
      [.execCmd (mkdirShellCmd (pathJoin "/tmp/cache" "org/repo")),
       .execCmd (saveTarCmd (dirname "data") (basename "data")
         (pathJoin (pathJoin "/tmp/cache" "org/repo")
           (filenamify "v1-deps" ++ ".tar.lz4")))] :=
  c8_save_path ⟨some "/tmp/cache", some "org/repo"⟩ noFail "data" []
    "v1-deps" (by decide) (fun c => rfl)

/-- C9: no execution of restore or save, whatever the inputs, the cache
directory state and the subprocess outcomes, raises ReserveCacheError. -/
theorem c9_reserve_never_raised (env : Env) (ef : String → Bool)
    (dir : List Entry) (paths : List String) (K : String)
    (rk : Option (List String)) :
    isReserveE (restoreCache env ef dir paths K rk).fst = false
  ∧ isReserveE (saveCache env ef paths K).fst = false := by
  constructor
  · rcases checkKey_cases K with hK | ⟨msg, hK⟩
    · cases paths with
      | nil => rw [restoreCache_nilPaths _ _ _ _ _ hK]; rfl
      | cons p rest =>
        rw [restoreCache_cons _ _ _ _ _ _ _ hK]
        simp only [restoreCacheLocated]
        split
        · rfl
        · split
          · rfl
          · rfl
    · rw [restoreCache_invalidKey _ _ _ _ _ _ _ hK]; rfl
  · cases paths with
    | nil => rw [saveCache_nilPaths]; rfl
    | cons p rest =>
      rcases checkKey_cases K with hK | ⟨msg, hK⟩
      · simp only [saveCache, checkPaths, hK, List.headD]
        split
        · rfl
        · split
          · rfl
          · rfl
      · rw [saveCache_invalidKey _ _ _ _ _ _ hK]; rfl

/-- C10: restore validates only the primary key: with a valid primary key
and a non-empty path list the result is never a ValidationError, whatever
the restore keys contain; the restore keys influence the computation only
through the sanitized candidate list, which for a non-empty restore key
list is the primary key followed by every restore key, each sanitized. -/
theorem c10_restore_keys_not_validated (env : Env) (ef : String → Bool)
    (dir : List Entry) (paths : List String) (K : String)
    (rk rk2 : List String) :
    (checkKey K = .ok () → paths ≠ [] →
      isValidationE (restoreCache env ef dir paths K (some rk)).fst = false)
  ∧ (candidateMatchers K (some rk) = candidateMatchers K (some rk2) →
      restoreCache env ef dir paths K (some rk) =
        restoreCache env ef dir paths K (some rk2))
  ∧ (rk ≠ [] → candidateMatchers K (some rk) = (K :: rk).map filenamify) := by
  refine ⟨?_, ?_, ?_⟩
  · intro hK hp
    cases paths with
    | nil => exact absurd rfl hp
    | cons p rest =>
      rw [restoreCache_cons _ _ _ _ _ _ _ hK]
      simp only [restoreCacheLocated]
      split
      · rfl
      · split
        · rfl
        · rfl
  · intro hsame
    cases hK : checkKey K with
    | error err => simp only [restoreCache, hK]
    | ok u =>
      cases paths with
      | nil => simp only [restoreCache, hK, checkPaths]
      | cons p rest =>
        rw [restoreCache_cons _ _ _ _ _ _ _ hK,
          restoreCache_cons _ _ _ _ _ _ _ hK]
        simp only [restoreCacheLocated, hsame]
  · intro hrk
    simp [candidateMatchers, isEmpty_false_of_ne_nil rk hrk]

/-- Witness for C10: a restore key of 300 commas, violating both
validation rules, still does not make restore fail with ValidationError
when the primary key and paths are valid. -/
theorem c10_witness :
    isValidationE (restoreCache defaultEnv noFail [] ["p"] "k"
      (some [badRestoreKey])).fst = false :=
  (c10_restore_keys_not_validated defaultEnv noFail [] ["p"] "k"
    [badRestoreKey] []).1 (by decide) (by decide)

end LocalCache
